import Mathlib

/-!
Verification development for the biokit-builder Repository Understanding Engine.

The definitions below are a shallow embedding of the TypeScript source of the
`@biokit/analyzer` package and of the Context Selection pattern module:

* `classifyRepository`      — `packages/@biokit/analyzer/src/classifier.ts`
* `testCoverageEstimate`    — `packages/@biokit/analyzer/src/analyzers/quality.ts` (`calculateMetrics`)
* `deduplicateFeatures`     — `analyzers/requirements.ts` (`deduplicateFeatures`)
* `recommendImprovements`   — `recommender.ts`
* `findTODOs`               — `packages/@biokit/analyzer/src/analyzers/gaps.ts`
* `calculateRelevanceScore`, `selectWithinBudget`, `selectFiles`,
  `findRelatedFiles`        — the Context Selector (`ContextSelector`,
  `DependencyAnalyzer` classes of the context-selection pattern module)

JavaScript machine numbers are modelled by `Nat` (all quantities involved are
non-negative counts), strings by `String`, JS `Set` insertion-ordered
collections by duplicate-free `List`s, and nullable values by `Option`.
-/

namespace BiokitBuilder

/-! ## Data model (`types.ts`, `analyzers/codebase.ts`) -/

/-- `RepoType` from `types.ts`: the four repository archetypes. -/
inductive RepoType where
  | requirementsOnly
  | partialImplementation
  | existingApp
  | hybrid
deriving DecidableEq, Repr

/-- The fields of the `package.json` object that `recommendImprovements`
inspects, each as the truthiness of the corresponding JS property access
(`scripts?.env`, `readme`, `devDependencies?.eslint`). -/
structure PackageJson where
  scriptsEnv : Bool
  readme : Bool
  devDepsEslint : Bool
deriving DecidableEq, Repr

/-- `CodebaseAnalysis` from `analyzers/codebase.ts` (the fields read by the
classifier and the recommendation engine). -/
structure CodebaseAnalysis where
  framework : String
  hasTypescript : Bool
  components : List String
  pages : List String
  apis : List String
  styles : List String
  tests : List String
  packageJson : Option PackageJson
deriving DecidableEq, Repr

/-- The `metrics` record of `CodeQuality` (`types.ts`). -/
structure Metrics where
  linesOfCode : Nat
  fileCount : Nat
  testCoverage : Nat
  componentCount : Nat
deriving DecidableEq, Repr

/-- `CodeQuality` from `types.ts` (the fields read by the recommendation
engine); `designSystem` is one of the seven string constants of the union. -/
structure CodeQuality where
  hasTests : Bool
  hasTypescript : Bool
  designSystem : String
  framework : String
  metrics : Option Metrics
deriving DecidableEq, Repr

/-! ## Classifier (`classifier.ts`) -/

/-- `classifyRepository` from `classifier.ts`, translated branch for branch.
`codeAnalysis : Option CodebaseAnalysis` models the nullable
`CodebaseAnalysis | null` parameter. -/
def classifyRepository (hasCode hasDocs : Bool)
    (codeAnalysis : Option CodebaseAnalysis) : RepoType :=
  if !hasCode && hasDocs then
    .requirementsOnly
  else if hasCode && !hasDocs then
    .existingApp
  else if hasCode && hasDocs then
    match codeAnalysis with
    | some ca =>
      if !(ca.components.length > 0) || !(ca.pages.length > 0) then
        .partialImplementation
      else if ca.tests.length > 0 && ca.components.length > 5 then
        .existingApp
      else
        .hybrid
    | none => .partialImplementation
  else
    .requirementsOnly

/-- The decision table as the spec states it, written independently of the
source: (¬code, docs) ↦ RequirementsOnly; (code, ¬docs) ↦ ExistingApp;
(code, docs) with no analyzer output ↦ PartialImplementation, else
PartialImplementation when the component count or the page count is zero,
else ExistingApp when tests exist and the component count exceeds 5, else
Hybrid; (¬code, ¬docs) ↦ RequirementsOnly. -/
def classifierDecisionTable (hasCode hasDocs : Bool)
    (codeAnalysis : Option CodebaseAnalysis) : RepoType :=
  match hasCode, hasDocs with
  | false, true => .requirementsOnly
  | true, false => .existingApp
  | true, true =>
    match codeAnalysis with
    | none => .partialImplementation
    | some ca =>
      if ca.components.length = 0 ∨ ca.pages.length = 0 then
        .partialImplementation
      else if ca.tests ≠ [] ∧ ca.components.length > 5 then
        .existingApp
      else
        .hybrid
  | false, false => .requirementsOnly

/-! ## Quality metrics (`analyzers/quality.ts`) -/

/-- `Math.round (num / den)` for non-negative quantities: rounding half away
from zero, computed exactly on naturals as `⌊(num + den/2) / den⌋`, i.e.
`(2*num + den) / (2*den)`. -/
def jsRound (num den : Nat) : Nat :=
  (2 * num + den) / (2 * den)

/-- The test-coverage estimate of `calculateMetrics` in `quality.ts`:
`Math.min(Math.round((testFiles.length / Math.max(codeFiles.length, 1)) * 100), 100)`,
with the float arithmetic idealised as exact rational rounding. -/
def testCoverageEstimate (testFileCount codeFileCount : Nat) : Nat :=
  min (jsRound (testFileCount * 100) (max codeFileCount 1)) 100

/-- The formula exactly as the spec writes it:
`min(100, round(100 × testFileCount / max(1, sourceFileCount)))`. -/
def coverageSpecFormula (testFileCount sourceFileCount : Nat) : Nat :=
  min 100 (jsRound (100 * testFileCount) (max 1 sourceFileCount))

/-! ## Requirements extractor: feature deduplication (`analyzers/requirements.ts`) -/

/-- Priority levels used by `ExtractedFeature` and `Gap`. -/
inductive Priority where
  | high
  | medium
  | low
deriving DecidableEq, Repr

/-- `ExtractedFeature` from `types.ts` (the fields the deduplication reads). -/
structure ExtractedFeature where
  name : String
  description : Option String
  priority : Option Priority
deriving DecidableEq, Repr

/-- Keep-first deduplication by a key function: the JS idiom of filtering with
a `seen` set (`deduplicateFeatures`) or with `self.indexOf(x) === index`
(the final filter of `recommendImprovements`), both of which keep exactly the
first occurrence of each key. -/
def dedupByKey {α β : Type} [DecidableEq β] (key : α → β) :
    List α → List β → List α
  | [], _ => []
  | x :: xs, seen =>
    if seen.contains (key x) then
      dedupByKey key xs seen
    else
      x :: dedupByKey key xs (key x :: seen)

/-- The spec's description of deduplication, written independently of the
seen-set implementation: keep the head (the first occurrence of its key, in
original order) and drop every later entry carrying the head's key. -/
def keepFirstByKey {α β : Type} [DecidableEq β] (key : α → β) : List α → List α
  | [] => []
  | x :: xs => x :: keepFirstByKey key (xs.filter fun a => key a ≠ key x)
termination_by l => l.length
decreasing_by
  simp only [List.length_cons]
  have := List.length_filter_le (fun a => decide (key a ≠ key x)) xs
  omega

/-- `deduplicateFeatures` from `analyzers/requirements.ts`: filter with a
`seen` set of lower-cased names, first occurrence wins. -/
def deduplicateFeatures (features : List ExtractedFeature) : List ExtractedFeature :=
  dedupByKey (fun f => f.name.toLower) features []

/-! ## Gap data model (`analyzers/gaps.ts`) -/

/-- The `type` union of `Gap` in `gaps.ts`. -/
inductive GapType where
  | todo
  | stub
  | mock
  | placeholder
  | incomplete
deriving DecidableEq, Repr

/-- `Gap` from `gaps.ts`. -/
structure Gap where
  type : GapType
  file : String
  line : Option Nat
  description : String
  priority : Option Priority
deriving DecidableEq, Repr

/-! ## Recommendation engine (`recommender.ts`) -/

/-- The `improvements` list built by `recommendImprovements` in
`recommender.ts` before its final dedup filter, translated rule for rule in
source order. -/
def improvementRules (ca : CodebaseAnalysis) (qa : CodeQuality)
    (gaps : List Gap) : List String :=
  (if qa.designSystem ≠ "biokit" then
        ["migrate-to-biokit-design-system: Replace current UI components with biokit-design-system"]
      else []) ++
      (if !qa.hasTypescript then
        ["add-typescript: Convert JavaScript to TypeScript for better type safety"]
      else []) ++
      (if !qa.hasTests then
        ["add-test-coverage: Add unit and integration tests"]
      else if qa.metrics.any (fun m => m.testCoverage < 60) then
        ["improve-test-coverage: Increase test coverage to at least 80%"]
      else []) ++
      (if gaps.length > 10 then
        ["complete-todos: Address TODO comments and incomplete implementations"]
      else []) ++
      (if (gaps.filter (fun g => g.type = .mock)).length > 0 then
        ["replace-mock-data: Replace mock data with real API integrations"]
      else []) ++
      (if (gaps.filter (fun g => g.type = .stub)).length > 0 then
        ["implement-stubs: Complete stub function implementations"]
      else []) ++
      (if ca.components.length > 0 then
        ["add-error-boundaries: Add React error boundaries for better error handling"]
      else []) ++
      ["improve-accessibility: Ensure WCAG 2.1 AA compliance"] ++
      (if ca.framework = "nextjs" then
        ["optimize-performance: Add Next.js performance optimizations (Image, Font, etc.)"]
      else []) ++
      (if ca.packageJson.any (fun pj => !pj.scriptsEnv) then
        ["extract-env-variables: Extract hardcoded values to environment variables"]
      else []) ++
      (if !(ca.packageJson.any (fun pj => pj.readme)) then
        ["add-documentation: Add README and API documentation"]
      else []) ++
      ["add-ci-cd: Set up continuous integration and deployment"] ++
      (if !(ca.packageJson.any (fun pj => pj.devDepsEslint)) then
        ["add-linting: Add ESLint and Prettier for code quality"]
      else []) ++
      (if ca.framework = "nextjs" ∨ ca.framework = "gatsby" then
        ["improve-seo: Add SEO optimizations and meta tags"]
      else []) ++
      ["add-loading-states: Add loading indicators for async operations"] ++
  (if ca.components.any (fun c =>
      (c.splitOn "form").length > 1 ∨ (c.splitOn "Form").length > 1) then
    ["add-form-validation: Add client and server-side form validation"]
  else [])

/-- `recommendImprovements` from `recommender.ts`: the two nullable
parameters are `Option`s and the early
`if (!codeAnalysis || !qualityAnalysis) return improvements` is the second
match arm; otherwise the rule list is built (`improvementRules`) and the
trailing `improvements.filter((imp, index, self) => self.indexOf(imp) === index)`
— keep-first deduplication by the improvement string itself — is applied. -/
def recommendImprovements (codeAnalysis : Option CodebaseAnalysis)
    (qualityAnalysis : Option CodeQuality) (gaps : List Gap) : List String :=
  match codeAnalysis, qualityAnalysis with
  | some ca, some qa => dedupByKey id (improvementRules ca qa gaps) []
  | _, _ => []

/-! ## Context Selector (context-selection pattern module) -/

/-- JS `hay.includes(needle)` on `List Char`: some suffix of `hay` starts with
`needle` (and the empty needle is always contained). -/
def listIncludes (hay needle : List Char) : Bool :=
  match hay with
  | [] => needle.isEmpty
  | _ :: t => needle.isPrefixOf hay || listIncludes t needle

/-- JS `String.prototype.includes`. -/
def stringIncludes (hay needle : String) : Bool :=
  listIncludes hay.toList needle.toList

/-- The `type` union of `FileManifest`. -/
inductive FileType where
  | component
  | util
  | style
  | config
  | test
deriving DecidableEq, Repr

/-- `FileManifest` (with the `score` added by `scoreFiles`, i.e. `ScoredFile`).
`tokens` stands for `tokenizer.count(content)`, the estimated token count of
the content; `daysSinceModified` stands for `daysSince(lastModified)`, the
whole days elapsed since the file's recorded modification time. -/
structure FileManifest where
  path : String
  content : String
  ftype : FileType
  tokens : Nat
  dependencies : List String
  exports : List String
  daysSinceModified : Nat
  score : Nat
deriving DecidableEq, Repr

/-- The `action` union of `ParsedIntent`. -/
inductive IntentAction where
  | create
  | update
  | fix
  | refactor
  | enhance
deriving DecidableEq, Repr

/-- The `complexity` union of `ParsedIntent`. -/
inductive Complexity where
  | simple
  | moderate
  | complex
deriving DecidableEq, Repr

/-- `ParsedIntent` from the context-selection pattern module. -/
structure ParsedIntent where
  action : IntentAction
  targetPath : Option String
  component : Option String
  keywords : List String
  fileTypes : List FileType
  complexity : Complexity
deriving DecidableEq, Repr

/-- `ContextSelectionOptions`. -/
structure ContextSelectionOptions where
  maxTokens : Nat
  maxFiles : Nat
  priorityPaths : List String
  excludePaths : List String
deriving DecidableEq, Repr

/-- Modelled from the spec: `hasRelevantDependencies` is declared but not
shown in the source excerpt; the spec describes the signal as the presence of
an import/export relationship to one of the intent's keywords, so it is
modelled as some keyword occurring (case-insensitively) in a dependency or an
export name of the file. -/
def hasRelevantDependencies (file : FileManifest) (intent : ParsedIntent) : Bool :=
  intent.keywords.any fun k =>
    file.dependencies.any (fun d => stringIncludes d.toLower k.toLower) ||
    file.exports.any (fun e => stringIncludes e.toLower k.toLower)

/-- `calculateRelevanceScore` from the `ContextSelector` class, translated
statement for statement (`score` is accumulated exactly as in the source; the
JS truthiness test `intent.targetPath && …` is false for a missing and for an
empty target path, and `Math.max(0, 10 - d)` is `Nat` subtraction). -/
def calculateRelevanceScore (file : FileManifest) (intent : ParsedIntent) : Nat :=
  let score : Nat := 0
  let score := match intent.targetPath with
    | some tp => if tp ≠ "" && stringIncludes file.path tp then score + 30 else score
    | none => score
  let keywordMatches :=
    (intent.keywords.filter fun keyword =>
      stringIncludes file.content.toLower keyword.toLower).length
  let score := score + min 25 (keywordMatches * 5)
  let score := if intent.fileTypes.contains file.ftype then score + 20 else score
  let score := if hasRelevantDependencies file intent then score + 15 else score
  let score := score + (10 - file.daysSinceModified)
  score

/-- The five independent signals of the spec, stated separately: path
containment (+30). -/
def pathSignal (file : FileManifest) (intent : ParsedIntent) : Nat :=
  match intent.targetPath with
  | some tp => if tp ≠ "" && stringIncludes file.path tp then 30 else 0
  | none => 0

/-- Keyword signal: +5 per matching keyword, capped at 5 matches (max +25). -/
def keywordSignal (file : FileManifest) (intent : ParsedIntent) : Nat :=
  min 25 (5 * (intent.keywords.filter fun keyword =>
    stringIncludes file.content.toLower keyword.toLower).length)

/-- File-type signal: +20 when the file's type is in the intent's type set. -/
def fileTypeSignal (file : FileManifest) (intent : ParsedIntent) : Nat :=
  if intent.fileTypes.contains file.ftype then 20 else 0

/-- Dependency signal: +15 for an import/export relationship to a keyword. -/
def dependencySignal (file : FileManifest) (intent : ParsedIntent) : Nat :=
  if hasRelevantDependencies file intent then 15 else 0

/-- Recency signal: +max(0, 10 − days-since-modified). -/
def recencySignal (file : FileManifest) : Nat :=
  10 - file.daysSinceModified

/-- `files.sort((a, b) => b.score - a.score)`: a stable descending sort by
score, modelled by stable insertion (each file is placed after all
earlier files of greater-or-equal score, matching the stable
`Array.prototype.sort`). -/
def insertByScoreDesc (sorted : List FileManifest) (f : FileManifest) : List FileManifest :=
  match sorted with
  | [] => [f]
  | g :: gs => if g.score < f.score then f :: g :: gs else g :: insertByScoreDesc gs f

/-- Sort by descending score (stable). -/
def sortByScoreDesc (files : List FileManifest) : List FileManifest :=
  files.foldl insertByScoreDesc []

/-- Modelled from the spec: `truncateToTokens` is declared but not shown in
the source excerpt; the spec says the file is "truncated to fit", so the
truncated file's estimated token count is the budget when the original
exceeds it. -/
def truncateToTokens (file : FileManifest) (maxTokens : Nat) : FileManifest :=
  { file with tokens := min file.tokens maxTokens }

/-- The loop of `selectWithinBudget`: `selected`/`currentTokens` are the
accumulated selection and its running token total; a file is accepted when it
still fits, and when nothing has been selected yet and the file does not fit,
the truncated file becomes the whole selection (`break`). -/
def selectLoop (files : List FileManifest) (selected : List FileManifest)
    (currentTokens maxTokens : Nat) : List FileManifest :=
  match files with
  | [] => selected
  | file :: rest =>
    if currentTokens + file.tokens ≤ maxTokens then
      selectLoop rest (selected ++ [file]) (currentTokens + file.tokens) maxTokens
    else if selected.length = 0 then
      selected ++ [truncateToTokens file maxTokens]
    else
      selectLoop rest selected currentTokens maxTokens

/-- `selectWithinBudget` from the `ContextSelector` class. -/
def selectWithinBudget (files : List FileManifest) (maxTokens : Nat) : List FileManifest :=
  selectLoop (sortByScoreDesc files) [] 0 maxTokens

/-- `scoreFiles`: attach `calculateRelevanceScore` to every file. -/
def scoreFiles (files : List FileManifest) (intent : ParsedIntent) : List FileManifest :=
  files.map fun file => { file with score := calculateRelevanceScore file intent }

/-- Modelled from the spec: `applyPriorities` is declared but not shown in the
source excerpt; the spec pins down that excluded paths are dropped and that a
file count ceiling (`options.maxFiles`) is enforced independently of the token
budget, so it is modelled as exclusion filtering followed by taking the
`maxFiles` highest-scoring files. -/
def applyPriorities (files : List FileManifest)
    (options : ContextSelectionOptions) : List FileManifest :=
  (sortByScoreDesc (files.filter fun f =>
    !(options.excludePaths.any fun p => stringIncludes f.path p))).take options.maxFiles

/-- `selectFiles` from the `ContextSelector` class over an already-parsed
intent (step 1, `parseIntent`, is applied upstream): score, apply priorities,
then select within the token budget. -/
def selectFiles (manifest : List FileManifest) (intent : ParsedIntent)
    (options : ContextSelectionOptions) : List FileManifest :=
  selectWithinBudget (applyPriorities (scoreFiles manifest intent) options) options.maxTokens

/-- Summed estimated token counts of a selection. -/
def sumTokens (files : List FileManifest) : Nat :=
  (files.map (fun f => f.tokens)).sum

/-! ## Dependency-graph expansion (`DependencyAnalyzer.findRelatedFiles`) -/

/-- The dependency graph `Map<string, Set<string>>` as an association list
from a file path to the list of paths it imports. -/
def DepGraph := List (String × List String)

/-- `graph.get(file) || new Set()`. -/
def graphLookup (graph : DepGraph) (file : String) : List String :=
  match graph with
  | [] => []
  | (node, deps) :: rest => if node = file then deps else graphLookup rest file

/-- The largest out-degree recorded in the graph (used only by the
termination measure of the BFS worklist loop). -/
def maxOutDeg (graph : DepGraph) : Nat :=
  match graph with
  | [] => 0
  | (_, deps) :: rest => max deps.length (maxOutDeg rest)

/-- JS `Set.prototype.add` on an insertion-ordered duplicate-free list. -/
def addVisited (related : List String) (file : String) : List String :=
  if related.contains file then related else related ++ [file]

/-- Termination measure for the BFS worklist: a queue entry at depth `d` costs
`(N+1)^(bound+1-d)` where `N` bounds the out-degree; popping an entry pays for
all entries it can push. -/
def bfsPotential (n bound : Nat) (queue : List (String × Nat)) : Nat :=
  (queue.map fun e => (n + 1) ^ (bound + 1 - e.2)).sum

/-- The `while` loop of `findRelatedFiles`: pop an entry; ignore it beyond the
depth bound; otherwise add its file to the visited set and enqueue every
not-yet-visited dependency one level deeper. -/
def findRelatedAux (graph : DepGraph) (bound : Nat) :
    List (String × Nat) → List String → List String
  | [], related => related
  | (file, d) :: rest, related =>
    if bound < d then
      findRelatedAux graph bound rest related
    else
      findRelatedAux graph bound
        (rest ++ ((graphLookup graph file).filter
          (fun dep => !(addVisited related file).contains dep)).map (fun dep => (dep, d + 1)))
        (addVisited related file)
termination_by queue _ => bfsPotential (maxOutDeg graph) bound queue
decreasing_by
· simp only [bfsPotential, List.map_cons, List.sum_cons]
  have hpow : 0 < (maxOutDeg graph + 1) ^ (bound + 1 - d) :=
    pow_pos (Nat.succ_pos _) _
  omega
· have hconst : ∀ (l : List String) (c : Nat), (l.map fun _ => c).sum = l.length * c := by
    intro l c
    induction l with
    | nil => simp
    | cons _ xs ih => simp [ih, Nat.succ_mul, Nat.add_comm]
  have hpushed : ∀ (dnew : Nat) (l : List String),
      bfsPotential (maxOutDeg graph) bound (l.map fun dep => (dep, dnew))
        = l.length * (maxOutDeg graph + 1) ^ (bound + 1 - dnew) := by
    intro dnew l
    unfold bfsPotential
    rw [List.map_map]
    have hcomp : ((fun e : String × Nat => (maxOutDeg graph + 1) ^ (bound + 1 - e.2))
        ∘ fun dep => (dep, dnew))
        = fun _ => (maxOutDeg graph + 1) ^ (bound + 1 - dnew) := rfl
    rw [hcomp]
    exact hconst l _
  have hpushed' := hpushed (d + 1)
    ((graphLookup graph file).filter (fun dep => !(addVisited related file).contains dep))
  simp only [bfsPotential, List.map_append, List.sum_append, List.map_cons,
    List.sum_cons] at hpushed' ⊢
  rw [hpushed', show bound + 1 - (d + 1) = bound - d from by omega]
  have hlook : ∀ (g : DepGraph) (f : String), (graphLookup g f).length ≤ maxOutDeg g := by
    intro g f
    induction g with
    | nil => simp [graphLookup, maxOutDeg]
    | cons e rest ih =>
      obtain ⟨node, deps⟩ := e
      by_cases h : node = f
      · simp [graphLookup, maxOutDeg, h]
      · simp only [graphLookup, maxOutDeg, if_neg h]
        exact le_trans ih (le_max_right _ _)
  have hlen : ((graphLookup graph file).filter
      (fun dep => !(addVisited related file).contains dep)).length ≤ maxOutDeg graph :=
    le_trans (List.length_filter_le _ _) (hlook graph file)
  have hx : 0 < (maxOutDeg graph + 1) ^ (bound - d) := pow_pos (Nat.succ_pos _) _
  have hsucc : bound + 1 - d = (bound - d) + 1 := by omega
  rw [hsucc, pow_succ]
  have key : ((graphLookup graph file).filter
        (fun dep => !(addVisited related file).contains dep)).length
        * (maxOutDeg graph + 1) ^ (bound - d)
      < (maxOutDeg graph + 1) ^ (bound - d) * (maxOutDeg graph + 1) := by
    calc ((graphLookup graph file).filter
          (fun dep => !(addVisited related file).contains dep)).length
          * (maxOutDeg graph + 1) ^ (bound - d)
        ≤ maxOutDeg graph * (maxOutDeg graph + 1) ^ (bound - d) :=
          Nat.mul_le_mul_right _ hlen
      _ < (maxOutDeg graph + 1) * (maxOutDeg graph + 1) ^ (bound - d) :=
          (Nat.mul_lt_mul_right hx).mpr (Nat.lt_succ_self _)
      _ = (maxOutDeg graph + 1) ^ (bound - d) * (maxOutDeg graph + 1) :=
          Nat.mul_comm _ _
  omega

/-- `findRelatedFiles` from the `DependencyAnalyzer` class: breadth-first
traversal from `targetFile`, bounded by `depth` (default 2), returning the
visited set in insertion order. -/
def findRelatedFiles (targetFile : String) (graph : DepGraph) (depth : Nat := 2) : List String :=
  findRelatedAux graph depth [(targetFile, 0)] []

/-! ## Gap detector: TODO markers (`analyzers/gaps.ts`, `findTODOs`)

The pattern `/\/\/\s*(TODO|FIXME|HACK|XXX|NOTE|OPTIMIZE|REFACTOR):?\s*(.+)/i`
is modelled by a direct backtracking matcher on `List Char`: leftmost search
for `//`, greedy whitespace skip, the marker alternation in order, then the
`:?\s*(.+)` tail, where the optional colon and the greedy whitespace
backtrack so that `(.+)` can still take at least one character.
Lines are assumed free of line-terminator characters (they come from
`content.split('\n')`). -/

/-- JS `\s` on the characters that can occur inside a line. -/
def isJsSpace (c : Char) : Bool :=
  c = ' ' || c = '\t' || c = '\x0b' || c = '\x0c'

/-- The whitespace class of JS `String.prototype.trim` (restricted to the
characters that can occur here). -/
def isJsTrimSpace (c : Char) : Bool :=
  isJsSpace c || c = '\n' || c = '\r'

/-- JS `String.prototype.trim` on `List Char`. -/
def jsTrim (l : List Char) : List Char :=
  ((l.dropWhile isJsTrimSpace).reverse.dropWhile isJsTrimSpace).reverse

/-- The marker alternation, in the source's order. -/
def todoMarkers : List String :=
  ["TODO", "FIXME", "HACK", "XXX", "NOTE", "OPTIMIZE", "REFACTOR"]

/-- The tail `\s*(.+)`: greedy whitespace, then at least one character; when
everything left is whitespace the star backtracks so that `(.+)` captures the
final character; fails only on the empty remainder. -/
def descTail (r : List Char) : Option (List Char) :=
  match r with
  | [] => none
  | _ =>
    let rest := r.dropWhile isJsSpace
    if rest.isEmpty then some (r.drop (r.length - 1)) else some rest

/-- The tail `:?\s*(.+)`: the optional colon is taken greedily and given back
when nothing can follow it. -/
def captureDesc (r : List Char) : Option (List Char) :=
  match r with
  | ':' :: r' =>
    match descTail r' with
    | some dsc => some dsc
    | none => descTail r
  | _ => descTail r

/-- Try the marker alternatives in order at the current position; an
alternative succeeds only when the `:?\s*(.+)` tail also matches (matching is
case-insensitive, the returned marker name is the canonical upper-case one,
as produced by `match[1].toUpperCase()`). -/
def tryMarkers (markers : List String) (s : List Char) : Option (String × List Char) :=
  match markers with
  | [] => none
  | m :: ms =>
    if m.toList.isPrefixOf (s.map Char.toUpper) then
      match captureDesc (s.drop m.length) with
      | some dsc => some (m, dsc)
      | none => tryMarkers ms s
    else
      tryMarkers ms s

/-- Attempt the whole pattern anchored at the current position: `//`, greedy
whitespace (no marker starts with a whitespace character, so the maximal skip
is the only viable one), then the alternation. -/
def matchTodoAt (s : List Char) : Option (String × List Char) :=
  match s with
  | '/' :: '/' :: rest => tryMarkers todoMarkers (rest.dropWhile isJsSpace)
  | _ => none

/-- Leftmost regex search over the line. -/
def searchTodo (s : List Char) : Option (String × List Char) :=
  match s with
  | [] => none
  | _ :: cs =>
    match matchTodoAt s with
    | some r => some r
    | none => searchTodo cs

/-- `findTODOs` from `gaps.ts`: one gap per line whose text matches the TODO
pattern, with the 1-based line number, the trimmed `(.+)` capture as
description, and priority high exactly for FIXME. -/
def findTODOs (file : String) (lines : List String) : List Gap :=
  lines.enum.filterMap fun e =>
    match searchTodo e.2.toList with
    | some (marker, dsc) =>
      some { type := .todo, file := file, line := some (e.1 + 1),
             description := String.mk (jsTrim dsc),
             priority := some (if marker = "FIXME" then .high else .medium) }
    | none => none

/-! ## Theorems -/

/-- C1: the Classifier is a total pure function following the fixed-order
decision table of the spec: for every combination of `hasCode`/`hasDocs`
crossed with analyzer-output availability, `classifyRepository` returns
exactly the archetype the table prescribes — RequirementsOnly for
(¬code, docs) and for (¬code, ¬docs), ExistingApp for (code, ¬docs), and for
(code, docs): PartialImplementation when analyzer output is unavailable or
when the component count or page count is zero, ExistingApp when tests exist
and the component count exceeds 5, else Hybrid. -/
theorem classifyRepository_follows_decision_table
    (hasCode hasDocs : Bool) (codeAnalysis : Option CodebaseAnalysis) :
    classifyRepository hasCode hasDocs codeAnalysis
      = classifierDecisionTable hasCode hasDocs codeAnalysis := by
  cases hasCode <;> cases hasDocs <;> cases codeAnalysis <;>
    simp only [classifyRepository, classifierDecisionTable, Bool.not_true, Bool.not_false,
      Bool.and_self, Bool.and_true, Bool.true_and, Bool.and_false, Bool.false_and,
      if_true, if_false, Bool.true_eq_false, Bool.false_eq_true, ite_true, ite_false,
      Bool.or_eq_true, Bool.not_eq_true', decide_eq_false_iff_not, Nat.not_lt, Nat.le_zero,
      Bool.and_eq_true, decide_eq_true_eq, List.length_pos, gt_iff_lt, ne_eq,
      not_not, List.length_eq_zero]

/-- C7: the test-coverage estimate equals the spec's formula
`min(100, round(100 × testFileCount / max(1, sourceFileCount)))` and always
lies in `0..100`. -/
theorem testCoverageEstimate_eq_spec_formula (testFileCount sourceFileCount : Nat) :
    testCoverageEstimate testFileCount sourceFileCount
        = coverageSpecFormula testFileCount sourceFileCount
      ∧ testCoverageEstimate testFileCount sourceFileCount ≤ 100 := by
  constructor
  · unfold testCoverageEstimate coverageSpecFormula
    rw [Nat.mul_comm, Nat.max_comm, Nat.min_comm]
  · exact Nat.min_le_right _ _

theorem dedupByKey_pairwise_and_unseen {α β : Type} [DecidableEq β] (key : α → β)
    (l : List α) (seen : List β) :
    List.Pairwise (fun a b => key a ≠ key b) (dedupByKey key l seen)
      ∧ ∀ x ∈ dedupByKey key l seen, key x ∉ seen := by
  induction l generalizing seen with
  | nil => simp [dedupByKey]
  | cons y ys ih =>
    simp only [dedupByKey]
    by_cases h : seen.contains (key y) = true
    · rw [if_pos h]
      have ihs := ih seen
      exact ⟨ihs.1, ihs.2⟩
    · rw [if_neg h]
      have ih' := ih (key y :: seen)
      refine ⟨List.pairwise_cons.mpr ⟨fun b hb => ?_, ih'.1⟩, fun x hx => ?_⟩
      · have hb' := ih'.2 b hb
        simp only [List.mem_cons, not_or] at hb'
        exact fun hk => hb'.1 hk.symm
      · rcases List.mem_cons.mp hx with rfl | hx'
        · exact fun hmem => h (List.elem_iff.mpr hmem)
        · have hx'' := ih'.2 x hx'
          simp only [List.mem_cons, not_or] at hx''
          exact hx''.2

theorem dedupByKey_sublist {α β : Type} [DecidableEq β] (key : α → β)
    (l : List α) (seen : List β) :
    (dedupByKey key l seen).Sublist l := by
  induction l generalizing seen with
  | nil => simp [dedupByKey]
  | cons y ys ih =>
    simp only [dedupByKey]
    by_cases h : seen.contains (key y) = true
    · rw [if_pos h]
      exact (ih seen).cons y
    · rw [if_neg h]
      exact (ih (key y :: seen)).cons₂ y

theorem dedupByKey_covers {α β : Type} [DecidableEq β] (key : α → β)
    (l : List α) (seen : List β) :
    ∀ x ∈ l, key x ∈ seen ∨ ∃ y ∈ dedupByKey key l seen, key y = key x := by
  induction l generalizing seen with
  | nil => simp
  | cons z zs ih =>
    intro x hx
    simp only [dedupByKey]
    by_cases h : seen.contains (key z) = true
    · rw [if_pos h]
      rcases List.mem_cons.mp hx with rfl | hx'
      · exact Or.inl (List.elem_iff.mp h)
      · exact ih seen x hx'
    · rw [if_neg h]
      rcases List.mem_cons.mp hx with rfl | hx'
      · exact Or.inr ⟨x, List.mem_cons_self _ _, rfl⟩
      · rcases ih (key z :: seen) x hx' with hmem | ⟨y, hy, hkey⟩
        · rcases List.mem_cons.mp hmem with heq | hmem'
          · exact Or.inr ⟨z, List.mem_cons_self _ _, heq.symm⟩
          · exact Or.inl hmem'
        · exact Or.inr ⟨y, List.mem_cons_of_mem _ hy, hkey⟩

theorem dedupByKey_id_nodup (l : List String) : (dedupByKey id l []).Nodup := by
  have h := (dedupByKey_pairwise_and_unseen (id : String → String) l []).1
  simpa [List.Nodup, id] using h

theorem filter_contains_cons {α β : Type} [DecidableEq β] (key : α → β)
    (xs : List α) (k : β) (seen : List β) :
    xs.filter (fun a => !((k :: seen).contains (key a)))
      = (xs.filter (fun a => !(seen.contains (key a)))).filter (fun a => key a ≠ k) := by
  rw [List.filter_filter]
  apply List.filter_congr
  intro a _
  by_cases h1 : key a = k <;> by_cases h2 : seen.contains (key a) = true <;>
    simp [List.contains_cons, h1, h2]

theorem dedupByKey_eq_keepFirstByKey_aux {α β : Type} [DecidableEq β] (key : α → β)
    (l : List α) :
    ∀ seen : List β,
      dedupByKey key l seen
        = keepFirstByKey key (l.filter fun a => !(seen.contains (key a))) := by
  induction l with
  | nil => intro seen; simp [dedupByKey, keepFirstByKey]
  | cons x xs ih =>
    intro seen
    simp only [dedupByKey, List.filter_cons]
    by_cases h : seen.contains (key x) = true
    · rw [if_pos h]
      have hmem : key x ∈ seen := List.elem_iff.mp h
      have hcond : (!seen.contains (key x)) = false := by simp [hmem]
      rw [hcond, if_neg (by simp)]
      exact ih seen
    · rw [if_neg h]
      have hmem : key x ∉ seen := fun hm => h (List.elem_iff.mpr hm)
      have hcond : (!seen.contains (key x)) = true := by simp [hmem]
      rw [hcond, if_pos rfl, keepFirstByKey]
      rw [ih (key x :: seen), filter_contains_cons key xs (key x) seen]

/-- Keep-first deduplication with a `seen` set computes exactly the spec's
keep-first-occurrence-in-original-order function. -/
theorem dedupByKey_eq_keepFirstByKey {α β : Type} [DecidableEq β] (key : α → β)
    (l : List α) : dedupByKey key l [] = keepFirstByKey key l := by
  have h := dedupByKey_eq_keepFirstByKey_aux key l []
  simpa using h

/-- C8: after deduplication the `ExtractedFeature` list has no two entries
with case-insensitively equal names, it is a sublist of the input, every
input name is still represented, and it equals the keep-first-occurrence
function `keepFirstByKey` on lower-cased names — so the kept entry for each
name is exactly its first occurrence, in extraction order.  Likewise the
improvement list of the Recommendation Engine never contains two entries with
an equal dedup key (the improvement string itself), and on non-null inputs it
equals `keepFirstByKey` of the rule-generated list — first occurrence per
key, original rule order preserved. -/
theorem dedup_first_occurrence_kept :
    (∀ features : List ExtractedFeature,
      List.Pairwise (fun a b => a.name.toLower ≠ b.name.toLower) (deduplicateFeatures features)
        ∧ (deduplicateFeatures features).Sublist features
        ∧ deduplicateFeatures features = keepFirstByKey (fun f => f.name.toLower) features
        ∧ ∀ f ∈ features, ∃ g ∈ deduplicateFeatures features,
            g.name.toLower = f.name.toLower)
    ∧ (∀ (codeAnalysis : Option CodebaseAnalysis) (qualityAnalysis : Option CodeQuality)
        (gaps : List Gap),
        (recommendImprovements codeAnalysis qualityAnalysis gaps).Nodup)
    ∧ ∀ (ca : CodebaseAnalysis) (qa : CodeQuality) (gaps : List Gap),
        recommendImprovements (some ca) (some qa) gaps
          = keepFirstByKey id (improvementRules ca qa gaps) := by
  refine ⟨fun features => ?_, fun codeAnalysis qualityAnalysis gaps => ?_,
    fun ca qa gaps => ?_⟩
  · refine ⟨(dedupByKey_pairwise_and_unseen _ features []).1,
      dedupByKey_sublist _ features [],
      dedupByKey_eq_keepFirstByKey _ features, fun f hf => ?_⟩
    rcases dedupByKey_covers (fun f => f.name.toLower) features [] f hf with hmem | h
    · simp at hmem
    · exact h
  · match codeAnalysis, qualityAnalysis with
    | some ca, some qa =>
      simp only [recommendImprovements]
      exact dedupByKey_id_nodup _
    | none, _ => simp [recommendImprovements]
    | some _, none => simp [recommendImprovements]
  · simp only [recommendImprovements]
    exact dedupByKey_eq_keepFirstByKey id _

/-- C10: when either the codebase-analysis input or the quality-analysis
input is null, `recommendImprovements` returns the empty list — no
recommendation at all, whatever the gap list. -/
theorem recommendImprovements_null_input_empty
    (codeAnalysis : Option CodebaseAnalysis) (qualityAnalysis : Option CodeQuality)
    (gaps : List Gap) (h : codeAnalysis = none ∨ qualityAnalysis = none) :
    recommendImprovements codeAnalysis qualityAnalysis gaps = [] := by
  rcases h with h | h <;> subst h
  · rfl
  · cases codeAnalysis <;> rfl

/-- Witness for C10 at a concrete input: a null codebase analysis with a
non-empty gap list still yields no recommendation. -/
theorem recommendImprovements_null_input_empty_witness :
    recommendImprovements none
      (some { hasTests := false, hasTypescript := false, designSystem := "none",
              framework := "Unknown", metrics := none })
      [{ type := .mock, file := "a.ts", line := some 1,
         description := "Mock or hardcoded data detected", priority := some .medium }] = [] :=
  recommendImprovements_null_input_empty none _ _ (Or.inl rfl)

theorem selectLoop_sum_le (files : List FileManifest) (selected : List FileManifest)
    (currentTokens maxTokens : Nat) (hsum : sumTokens selected = currentTokens)
    (hle : currentTokens ≤ maxTokens) :
    sumTokens (selectLoop files selected currentTokens maxTokens) ≤ maxTokens := by
  induction files generalizing selected currentTokens with
  | nil => simpa [selectLoop, hsum] using hle
  | cons file rest ih =>
    simp only [selectLoop]
    by_cases h1 : currentTokens + file.tokens ≤ maxTokens
    · rw [if_pos h1]
      exact ih (selected ++ [file]) (currentTokens + file.tokens)
        (by
          simp only [sumTokens, List.map_append, List.map_cons, List.map_nil,
            List.sum_append, List.sum_cons, List.sum_nil] at hsum ⊢
          omega) h1
    · rw [if_neg h1]
      by_cases h2 : selected.length = 0
      · rw [if_pos h2]
        have hsel : selected = [] := List.length_eq_zero.mp h2
        subst hsel
        simp only [List.nil_append, sumTokens, List.map_cons, List.map_nil, List.sum_cons,
          List.sum_nil, truncateToTokens]
        omega
      · rw [if_neg h2]
        exact ih selected currentTokens hsum hle

theorem selectLoop_ne_nil (files : List FileManifest) (selected : List FileManifest)
    (currentTokens maxTokens : Nat) (h : selected ≠ []) :
    selectLoop files selected currentTokens maxTokens ≠ [] := by
  induction files generalizing selected currentTokens with
  | nil => simpa [selectLoop] using h
  | cons file rest ih =>
    simp only [selectLoop]
    by_cases h1 : currentTokens + file.tokens ≤ maxTokens
    · rw [if_pos h1]
      exact ih (selected ++ [file]) (currentTokens + file.tokens) (by simp)
    · rw [if_neg h1]
      by_cases h2 : selected.length = 0
      · exact absurd (List.length_eq_zero.mp h2) h
      · rw [if_neg h2]
        exact ih selected currentTokens h

theorem selectLoop_length_le (files : List FileManifest) (selected : List FileManifest)
    (currentTokens maxTokens : Nat) :
    (selectLoop files selected currentTokens maxTokens).length
      ≤ selected.length + files.length := by
  induction files generalizing selected currentTokens with
  | nil => simp [selectLoop]
  | cons file rest ih =>
    simp only [selectLoop, List.length_cons]
    by_cases h1 : currentTokens + file.tokens ≤ maxTokens
    · rw [if_pos h1]
      have := ih (selected ++ [file]) (currentTokens + file.tokens)
      simp only [List.length_append, List.length_cons, List.length_nil] at this
      omega
    · rw [if_neg h1]
      by_cases h2 : selected.length = 0
      · rw [if_pos h2]
        simp only [List.length_append, List.length_cons, List.length_nil]
        omega
      · rw [if_neg h2]
        have := ih selected currentTokens
        omega

theorem insertByScoreDesc_length (sorted : List FileManifest) (f : FileManifest) :
    (insertByScoreDesc sorted f).length = sorted.length + 1 := by
  induction sorted with
  | nil => rfl
  | cons g gs ih =>
    simp only [insertByScoreDesc]
    by_cases h : g.score < f.score
    · rw [if_pos h]
      rfl
    · rw [if_neg h]
      simp [ih]

theorem sortByScoreDesc_length (files : List FileManifest) :
    (sortByScoreDesc files).length = files.length := by
  have general : ∀ (fs : List FileManifest) (acc : List FileManifest),
      (fs.foldl insertByScoreDesc acc).length = acc.length + fs.length := by
    intro fs
    induction fs with
    | nil => simp
    | cons f rest ih =>
      intro acc
      simp only [List.foldl_cons, List.length_cons]
      rw [ih (insertByScoreDesc acc f), insertByScoreDesc_length]
      omega
  simpa using general files []

/-- C2: the budgeting step respects the budget: the summed estimated token
counts of the selection is at most `maxTokens`, or exactly one file — the
highest-scoring one, truncated to fit — is selected because even the top
candidate alone exceeds the budget.  (With truncation-to-fit the first
disjunct in fact always holds.) -/
theorem selectWithinBudget_budget_respected (files : List FileManifest) (maxTokens : Nat) :
    sumTokens (selectWithinBudget files maxTokens) ≤ maxTokens
      ∨ (∃ f rest, sortByScoreDesc files = f :: rest ∧ maxTokens < f.tokens
          ∧ selectWithinBudget files maxTokens = [truncateToTokens f maxTokens]) := by
  exact Or.inl (selectLoop_sum_le _ _ _ _ rfl (Nat.zero_le _))

/-- C3: for a non-empty candidate list the selection is never empty, and when
the highest-scoring file alone exceeds the token limit it is the selection,
truncated to fit. -/
theorem selectWithinBudget_at_least_one (files : List FileManifest) (maxTokens : Nat)
    (h : files ≠ []) :
    selectWithinBudget files maxTokens ≠ []
      ∧ ∀ f rest, sortByScoreDesc files = f :: rest → maxTokens < f.tokens →
          selectWithinBudget files maxTokens = [truncateToTokens f maxTokens] := by
  constructor
  · have hlen : (sortByScoreDesc files).length = files.length := sortByScoreDesc_length files
    have hne : sortByScoreDesc files ≠ [] := by
      intro hnil
      rw [hnil] at hlen
      exact h (List.length_eq_zero.mp hlen.symm)
    unfold selectWithinBudget
    rcases hsort : sortByScoreDesc files with _ | ⟨f, rest⟩
    · exact absurd hsort hne
    · simp only [selectLoop]
      by_cases h1 : 0 + f.tokens ≤ maxTokens
      · rw [if_pos h1]
        exact selectLoop_ne_nil _ _ _ _ (by simp)
      · rw [if_neg h1]
        simp
  · intro f rest hsort hover
    unfold selectWithinBudget
    rw [hsort]
    simp only [selectLoop]
    rw [if_neg (by omega : ¬(0 + f.tokens ≤ maxTokens))]
    simp

/-- Witness for C3: a single candidate of 10 estimated tokens against a
budget of 3 still yields a non-empty selection. -/
theorem selectWithinBudget_at_least_one_witness :
    ([({ path := "src/App.tsx", content := "export {}", ftype := .component,
         tokens := 10, dependencies := [], exports := [], daysSinceModified := 0,
         score := 42 } : FileManifest)] ≠ [])
    ∧ selectWithinBudget
        [{ path := "src/App.tsx", content := "export {}", ftype := .component,
           tokens := 10, dependencies := [], exports := [], daysSinceModified := 0,
           score := 42 }] 3 ≠ [] :=
  ⟨by decide,
   (selectWithinBudget_at_least_one
     [{ path := "src/App.tsx", content := "export {}", ftype := .component,
        tokens := 10, dependencies := [], exports := [], daysSinceModified := 0,
        score := 42 }] 3 (by decide)).1⟩

/-- C4: the returned selection never has more files than the caller's
`maxFiles` ceiling, regardless of the token budget. -/
theorem selectFiles_respects_maxFiles (manifest : List FileManifest)
    (intent : ParsedIntent) (options : ContextSelectionOptions) :
    (selectFiles manifest intent options).length ≤ options.maxFiles := by
  unfold selectFiles selectWithinBudget
  have h1 : (selectLoop (sortByScoreDesc (applyPriorities (scoreFiles manifest intent) options))
      [] 0 options.maxTokens).length
      ≤ (sortByScoreDesc (applyPriorities (scoreFiles manifest intent) options)).length := by
    simpa using selectLoop_length_le
      (sortByScoreDesc (applyPriorities (scoreFiles manifest intent) options)) [] 0
      options.maxTokens
  rw [sortByScoreDesc_length] at h1
  refine le_trans h1 ?_
  unfold applyPriorities
  exact le_trans (List.length_take_le _ _) (le_refl _)

/-- C5: the relevance score is exactly the sum of the five independent
weighted signals — path containment (+30), capped keyword matches (+5 each,
max +25), file-type membership (+20), import/export relationship (+15) and
recency decay (+max(0, 10 − days)) — and therefore always lies between
0 and 100. -/
theorem calculateRelevanceScore_signal_sum (file : FileManifest) (intent : ParsedIntent) :
    calculateRelevanceScore file intent
        = pathSignal file intent + keywordSignal file intent + fileTypeSignal file intent
          + dependencySignal file intent + recencySignal file
      ∧ calculateRelevanceScore file intent ≤ 100 := by
  cases htp : intent.targetPath with
  | none =>
    simp only [calculateRelevanceScore, pathSignal, keywordSignal, fileTypeSignal,
      dependencySignal, recencySignal, htp]
    split_ifs <;> constructor <;> omega
  | some tp =>
    simp only [calculateRelevanceScore, pathSignal, keywordSignal, fileTypeSignal,
      dependencySignal, recencySignal, htp]
    split_ifs <;> constructor <;> omega

theorem addVisited_nodup (related : List String) (file : String) (h : related.Nodup) :
    (addVisited related file).Nodup := by
  unfold addVisited
  by_cases hc : related.contains file = true
  · rwa [if_pos hc]
  · rw [if_neg hc]
    rw [List.nodup_append]
    refine ⟨h, List.nodup_singleton _, ?_⟩
    intro a ha hmem
    rcases List.mem_singleton.mp hmem with rfl
    exact hc (List.elem_iff.mpr ha)

theorem findRelatedAux_nodup (graph : DepGraph) (bound : Nat)
    (queue : List (String × Nat)) (related : List String) (h : related.Nodup) :
    (findRelatedAux graph bound queue related).Nodup := by
  induction queue, related using findRelatedAux.induct graph bound with
  | case1 related => simpa [findRelatedAux] using h
  | case2 file d rest related hd ih =>
    rw [findRelatedAux, if_pos hd]
    exact ih h
  | case3 file d rest related hd ih =>
    rw [findRelatedAux, if_neg hd]
    exact ih (addVisited_nodup related file h)

/-- C6: dependency-graph expansion is a total function (it terminates on
every finite graph, cycles included — `findRelatedAux` carries a
well-founded termination argument), its result contains each visited node
exactly once, and on the two-node cycle A→B→A starting from A with the
default depth 2 it returns exactly {A, B}. -/
theorem findRelatedFiles_terminates_nodup :
    (∀ (graph : DepGraph) (targetFile : String) (depth : Nat),
        (findRelatedFiles targetFile graph depth).Nodup)
      ∧ findRelatedFiles "A" [("A", ["B"]), ("B", ["A"])] 2 = ["A", "B"] := by
  constructor
  · intro graph targetFile depth
    exact findRelatedAux_nodup graph depth [(targetFile, 0)] [] List.nodup_nil
  · simp [findRelatedFiles, findRelatedAux, graphLookup, addVisited]

/-- C9 counterexample: the claim says a line ending immediately after
`// FIXME:` (recognized marker plus optional colon, no description) produces
no gap at all; in fact the optional colon of the pattern backtracks, `(.+)`
captures the colon itself, and `findTODOs` reports one gap with description
`":"` and priority high. -/
theorem findTODOs_bare_fixme_colon_counterexample :
    findTODOs "file.ts" ["// FIXME:"]
      = [{ type := .todo, file := "file.ts", line := some 1, description := ":",
           priority := some .high }] := by
  decide

/-- C9 amended: a line ending immediately after a bare marker with no colon
(`// TODO`, `// FIXME`, …) produces no gap — the pattern requires at least one
character after the marker; but when the optional colon is present with
nothing after it, the colon backtracks into the `(.+)` capture and a gap IS
produced, with description `":"` (priority high for FIXME, medium
otherwise). -/
theorem findTODOs_bare_marker_behaviour :
    findTODOs "file.ts" ["// TODO"] = []
      ∧ findTODOs "file.ts" ["// FIXME"] = []
      ∧ findTODOs "file.ts" ["// HACK"] = []
      ∧ findTODOs "file.ts" ["// XXX"] = []
      ∧ findTODOs "file.ts" ["// NOTE"] = []
      ∧ findTODOs "file.ts" ["// OPTIMIZE"] = []
      ∧ findTODOs "file.ts" ["// REFACTOR"] = []
      ∧ findTODOs "file.ts" ["// TODO:"]
          = [{ type := .todo, file := "file.ts", line := some 1, description := ":",
               priority := some .medium }]
      ∧ findTODOs "file.ts" ["// FIXME:"]
          = [{ type := .todo, file := "file.ts", line := some 1, description := ":",
               priority := some .high }] := by
  decide

end BiokitBuilder
